import Mathlib

/-!
Shallow embedding of the drivetools remote-sync engine (`src/drivetools.py`).

Machine model:
* A remote node (`DriveFile`) carries id, title, mimeType, a list of parent
  ids, and a modification timestamp (modelled as `Nat`).
* The remote service (`Drive`) is a list of nodes plus a fresh-id counter and
  a clock. Every remote write (CreateFile(...).Upload()) is recorded in a
  ghost `log`; function entries relevant to the traversal-order claims are
  recorded in a ghost `trace`. Ghost fields are never read by the embedded
  code itself.
* Python's `os.path.split`-based path decomposition is embedded exactly,
  with a fuel parameter: the source's `while head != ''` loop does not
  terminate on some inputs, which the embedding reports as `none`.
-/

/-- Not the path separator. -/
def nonSep (c : Char) : Bool := c != '/'

/-- The path separator. -/
def isSep (c : Char) : Bool := c == '/'

/-- `posixpath.split`: split a path into `(head, tail)` where `tail` is the
maximal suffix without a separator and `head` is the rest with trailing
separators stripped (unless `head` consists only of separators). -/
def pyPathSplit (p : List Char) : List Char × List Char :=
  let t := (p.reverse.takeWhile nonSep).reverse
  let head := p.take (p.length - t.length)
  if head ≠ [] ∧ head.any nonSep = true then
    ((head.reverse.dropWhile isSep).reverse, t)
  else
    (head, t)

/-- The `while head != ''` loop of `_create_path_stack`, with fuel.
`none` models non-termination of the source loop. -/
def pathStackGo (fuel : Nat) (head : List Char) (stack : List (List Char)) :
    Option (List (List Char)) :=
  if head = [] then
    some stack
  else
    match fuel with
    | 0 => none
    | fuel + 1 =>
      let ht := pyPathSplit head
      pathStackGo fuel ht.1 (stack ++ [ht.2])

/-- `_create_path_stack`: repeatedly `os.path.split` the path, pushing each
tail; returns the stack leaf-first (the fuel `path.length + 1` is enough for
every terminating run of the source loop). -/
def create_path_stack (path : String) : Option (List String) :=
  let ht := pyPathSplit path.data
  (pathStackGo (path.length + 1) ht.1 [ht.2]).map (fun l => l.map String.mk)

/-- Iterating a `PathStack` pops from the top, so the folder names are
consumed in root-to-leaf order: the reverse of `_create_path_stack`. -/
def pathSegments (path : String) : Option (List String) :=
  (create_path_stack path).map List.reverse

/-- `posixpath.join` for a single extra component. -/
def pyPathJoin (a b : String) : String :=
  if b.data.head? = some '/' then b
  else if a = "" ∨ a.data.getLast? = some '/' then a ++ b
  else a ++ "/" ++ b

/-- Python `needle in haystack` on strings: contiguous substring test. -/
def pySubstr (needle haystack : String) : Bool :=
  decide (needle.data <:+: haystack.data)

/-- `FOLDER_MIME_TYPE`. -/
def FOLDER_MIME_TYPE : String := "application/vnd.google-apps.folder"

/-- The `parents` params entry built from an optional parent id (omitted,
i.e. `[]`, when the parent is `None`). -/
def parentsOf : Option String → List String
  | some p => [p]
  | none => []

/-- One remote node's metadata (a pydrive file dict). `parents` is the list
of parent ids (each entry of the Python `parents` list is a dict holding an
`id`). -/
structure DriveFile where
  id : String
  title : String
  mimeType : String
  parents : List String
  modifiedDate : Nat
  deriving DecidableEq, Repr

/-- `FileList`. -/
abbrev DFileList := List DriveFile

/-- The parameter dict passed to `drive.CreateFile`. Absent keys are `none`
/ `[]`. -/
structure FileParams where
  title : String
  mimeType : Option String := none
  parents : List String := []
  id : Option String := none
  deriving DecidableEq, Repr

/-- Ghost trace events: `sync_file` invocations and `sync_folder` entries. -/
inductive Event where
  | syncFile (name : String)
  | enterFolder (path : String)
  deriving DecidableEq, Repr

/-- The remote service plus ghost instrumentation: `files` is the non-trashed
node set, `nextId` feeds fresh ids, `time` is the server clock stamped onto
writes, `log` records every remote write's params, `trace` records events. -/
structure Drive where
  files : List DriveFile
  nextId : Nat
  time : Nat
  log : List FileParams := []
  trace : List Event := []
  deriving DecidableEq, Repr

/-- Append a ghost trace event. -/
def pushTrace (d : Drive) (e : Event) : Drive :=
  { d with trace := d.trace ++ [e] }

/-- Fresh id assigned by the service to the next created node. -/
def freshId (d : Drive) : String :=
  "id" ++ toString d.nextId

/-- `drive.CreateFile(params)` followed by `Upload()`: with an `id` in the
params this updates the existing node in place (preserving its id), otherwise
it creates a node with a fresh id. Returns the written node's id. -/
def Drive.upload (d : Drive) (params : FileParams) : String × Drive :=
  match params.id with
  | some fid =>
    (fid,
      { d with
        files := d.files.map (fun f =>
          if f.id == fid then
            { f with title := params.title, modifiedDate := d.time }
          else f),
        log := d.log ++ [params] })
  | none =>
    (freshId d,
      { d with
        files := d.files ++
          [⟨freshId d, params.title, params.mimeType.getD "", params.parents,
            d.time⟩],
        nextId := d.nextId + 1,
        log := d.log ++ [params] })

/-- `get_gdrive_file_list`: a supplied `file_list` is returned unchanged;
otherwise the remote is queried (children of the given parent, or all
non-trashed files when no parent is given). -/
def get_gdrive_file_list (d : Drive) (remote_parent_id : Option String)
    (file_list : Option DFileList) : DFileList :=
  match file_list with
  | some l => l
  | none =>
    match remote_parent_id with
    | some pid => d.files.filter (fun f => f.parents.contains pid)
    | none => d.files

/-- The per-file test of `get_gdrive_folder_id`: exact title equality plus
folder mime type. -/
def folderMatch (folder_name : String) (f : DriveFile) : Bool :=
  f.title == folder_name && f.mimeType == FOLDER_MIME_TYPE

/-- `get_gdrive_folder_id`: substitutes `'root'` for a missing parent, then
scans the file list for an exact title match with folder mime type. -/
def get_gdrive_folder_id (d : Drive) (folder_name : String)
    (remote_parent_id : Option String) (file_list : Option DFileList) :
    Option String :=
  let rpid : Option String :=
    match remote_parent_id with
    | none => some "root"
    | some p => some p
  let l := get_gdrive_file_list d rpid file_list
  (l.find? (folderMatch folder_name)).map (fun f => f.id)

/-- `get_gdrive_file_id`: scans the file list and returns the first file
whose title *contains* the name (Python `name in file_['title']`). -/
def get_gdrive_file_id (d : Drive) (name : String)
    (remote_parent_id : Option String) (file_list : Option DFileList) :
    Option String :=
  let l := get_gdrive_file_list d remote_parent_id file_list
  (l.find? (fun f => pySubstr name f.title)).map (fun f => f.id)

/-- A local file as observed by the engine: its name and mtime. -/
structure LocalFile where
  name : String
  mtime : Nat
  deriving DecidableEq, Repr

/-- `_create_file_params`. -/
def create_file_params (local_file : LocalFile)
    (remote_parent_id : Option String) (file_id : Option String) :
    FileParams :=
  { title := local_file.name,
    parents := parentsOf remote_parent_id,
    id := file_id }

/-- `get_gdrive_modification_date`: taken from the supplied file list when it
holds the id, otherwise fetched from the remote; `none` models the metadata
fetch failing because no such node exists. -/
def get_gdrive_modification_date (d : Drive) (file_id : String)
    (file_list : Option DFileList) : Option Nat :=
  match file_list with
  | some l =>
    if (l.map (fun f => f.id)).contains file_id then
      (l.find? (fun f => f.id == file_id)).map (fun f => f.modifiedDate)
    else
      (d.files.find? (fun f => f.id == file_id)).map (fun f => f.modifiedDate)
  | none =>
    (d.files.find? (fun f => f.id == file_id)).map (fun f => f.modifiedDate)

/-- `get_gdrive_path_id`: fold the folder lookup over the path segments
(parent starts at `None`); outer `none` models the source's path loop not
terminating. -/
def get_gdrive_path_id (d : Drive) (path : String)
    (file_list : Option DFileList) : Option (Option String) :=
  (pathSegments path).map (fun segs =>
    segs.foldl (fun parent folder =>
      get_gdrive_folder_id d folder parent file_list) none)

/-- `upload_file`: resolves `remote_parent_path` when given (asserting a
parent id was also passed), builds the params and uploads. `none` models an
assertion failure or a non-terminating path resolution. -/
def upload_file (d : Drive) (local_file : LocalFile)
    (remote_parent_id : Option String) (remote_parent_path : Option String)
    (file_id : Option String) (file_list : Option DFileList) :
    Option Drive :=
  match remote_parent_path with
  | none =>
    some (d.upload (create_file_params local_file remote_parent_id
      file_id)).2
  | some path =>
    if remote_parent_id = none then none
    else
      match get_gdrive_path_id d path file_list with
      | none => none
      | some rpid =>
        some (d.upload (create_file_params local_file rpid file_id)).2

/-- Params built by `create_gdrive_folder` (`parents` omitted when the
parent is `None`). -/
def folderParams (folder_name : String) (remote_parent_id : Option String) :
    FileParams :=
  { title := folder_name,
    mimeType := some FOLDER_MIME_TYPE,
    parents := parentsOf remote_parent_id }

/-- The record the remote service stores for a folder created by
`create_gdrive_folder` on drive state `d`. -/
def newFolderRec (d : Drive) (folder_name : String)
    (remote_parent_id : Option String) : DriveFile :=
  ⟨freshId d, folder_name, FOLDER_MIME_TYPE, parentsOf remote_parent_id,
    d.time⟩

/-- `create_gdrive_folder`: look the folder up first; only when the lookup
fails is a remote folder created. The returned id is threaded, but the
supplied `file_list` is never extended. -/
def create_gdrive_folder (d : Drive) (folder_name : String)
    (remote_parent_id : Option String) (file_list : Option DFileList) :
    String × Drive :=
  match get_gdrive_folder_id d folder_name remote_parent_id file_list with
  | some fid => (fid, d)
  | none => d.upload (folderParams folder_name remote_parent_id)

/-- The loop of `create_gdrive_path`: fold `create_gdrive_folder` over the
segments in root-to-leaf order, threading the id (initially `None`) and
passing the *same* `file_list` to every step. -/
def createFolders (d : Drive) (segs : List String) (id_ : Option String)
    (file_list : Option DFileList) : Option String × Drive :=
  match segs with
  | [] => (id_, d)
  | s :: rest =>
    let r := create_gdrive_folder d s id_ file_list
    createFolders r.2 rest (some r.1) file_list

/-- `create_gdrive_path`; outer `none` models the source's path-stack loop
not terminating. -/
def create_gdrive_path (d : Drive) (path : String)
    (file_list : Option DFileList) : Option (Option String × Drive) :=
  (pathSegments path).map (fun segs => createFolders d segs none file_list)

/-- The action `sync_file` ends up performing for one local file. -/
inductive SyncAction where
  | create
  | overwrite
  | skip
  deriving DecidableEq, Repr

/-- `sync_file`: look the file up by (substring) name; absent → upload as a
new node; present → overwrite (by id) exactly when the remote date is
strictly older than the local mtime, otherwise do nothing. -/
def sync_file (d : Drive) (local_file : LocalFile)
    (remote_parent_id : Option String) (remote_parent_path : Option String)
    (file_list : Option DFileList) : Option (SyncAction × Drive) :=
  let d := pushTrace d (.syncFile local_file.name)
  match get_gdrive_file_id d local_file.name remote_parent_id file_list with
  | none =>
    (upload_file d local_file remote_parent_id remote_parent_path none
      file_list).map (fun d' => (SyncAction.create, d'))
  | some fid =>
    match get_gdrive_modification_date d fid file_list with
    | none => none
    | some rdate =>
      if rdate < local_file.mtime then
        (upload_file d local_file none none (some fid) none).map
          (fun d' => (SyncAction.overwrite, d'))
      else
        some (SyncAction.skip, d)

/-- `_extract_file_list`: keep the files one of whose parent ids equals the
given (possibly `None`) parent. Python compares `remote_parent_id`, an
optional value, against the parent id strings, so `None` matches nothing. -/
def extract_file_list (root_file_list : DFileList)
    (remote_parent_id : Option String) : DFileList :=
  root_file_list.filter (fun f => (f.parents.map some).contains
    remote_parent_id)

/-- A local directory entry: a file (name, mtime) or a subdirectory with its
own entries, listed in enumeration order. -/
inductive LocalEntry where
  | file (name : String) (mtime : Nat)
  | dir (name : String) (entries : List LocalEntry)
  deriving Repr

/-- `_sync_folder_non_recursive`: one pass over the directory's entries in
enumeration order — files are synced immediately, subdirectories are
collected (in order) for the caller to recurse into. -/
def sync_folder_non_recursive (d : Drive) (entries : List LocalEntry)
    (remote_parent_id : Option String) (file_list : Option DFileList) :
    Option (Drive × List (String × List LocalEntry)) :=
  match entries with
  | [] => some (d, [])
  | .dir n es :: rest =>
    (sync_folder_non_recursive d rest remote_parent_id file_list).map
      (fun r => (r.1, (n, es) :: r.2))
  | .file n mt :: rest =>
    match sync_file d ⟨n, mt⟩ remote_parent_id none file_list with
    | none => none
    | some r => sync_folder_non_recursive r.2 rest remote_parent_id file_list

/-- `sync_folder`, with fuel bounding the recursion depth: resolve/create
the remote path, fetch the root listing when none was supplied, filter it to
the children of the resolved parent, sync the files, then recurse into each
subdirectory with the (never refreshed) root listing. -/
def syncFolderFuel (fuel : Nat) (d : Drive) (entries : List LocalEntry)
    (remote_parent_path : String) (root_file_list : Option DFileList) :
    Option Drive :=
  match fuel with
  | 0 => none
  | fuel + 1 =>
    let d := pushTrace d (.enterFolder remote_parent_path)
    match create_gdrive_path d remote_parent_path root_file_list with
    | none => none
    | some (remote_parent_id, d1) =>
      let rootl := root_file_list.getD d1.files
      let fl := extract_file_list rootl remote_parent_id
      match sync_folder_non_recursive d1 entries remote_parent_id
        (some fl) with
      | none => none
      | some (d2, subs) =>
        subs.foldl (fun acc p =>
          acc.bind (fun dd =>
            syncFolderFuel fuel dd p.2 (pyPathJoin remote_parent_path p.1)
              (some rootl)))
          (some d2)

mutual

/-- Depth of a local tree, used to pick a sufficient fuel. -/
def entryDepth : LocalEntry → Nat
  | .file _ _ => 0
  | .dir _ es => 1 + entriesDepth es

/-- Depth of a forest of local entries. -/
def entriesDepth : List LocalEntry → Nat
  | [] => 0
  | e :: rest => Nat.max (entryDepth e) (entriesDepth rest)

end

/-- `sync_folder` as invoked by a caller (fuel large enough for the whole
tree). -/
def sync_folder (d : Drive) (entries : List LocalEntry)
    (remote_parent_path : String) (root_file_list : Option DFileList) :
    Option Drive :=
  syncFolderFuel (entriesDepth entries + 1) d entries
    remote_parent_path root_file_list

/-- Modelled from the spec (§4.3, for comparison with the source's
`createFolders`): the same resolver loop, but after each creation the index
is extended with exactly the newly created record
(`index' = index ∪ {newId: newRecord}`) and the extended index is used for
the remaining segments. -/
def createFoldersThreaded (d : Drive) (segs : List String)
    (id_ : Option String) (file_list : DFileList) : Option String × Drive :=
  match segs with
  | [] => (id_, d)
  | s :: rest =>
    match get_gdrive_folder_id d s id_ (some file_list) with
    | some fid => createFoldersThreaded d rest (some fid) file_list
    | none =>
      let r := d.upload (folderParams s id_)
      createFoldersThreaded r.2 rest (some r.1)
        (file_list ++ [newFolderRec d s id_])

/-- The subdirectories (name, entries) that `_sync_folder_non_recursive`
collects, in enumeration order. -/
def dirPairs (entries : List LocalEntry) : List (String × List LocalEntry) :=
  entries.filterMap (fun e =>
    match e with
    | .dir n es => some (n, es)
    | .file _ _ => none)

/-- The sync-file events, in order, for the files directly inside one
directory. -/
def fileEvents (entries : List LocalEntry) : List Event :=
  entries.filterMap (fun e =>
    match e with
    | .file n _ => some (Event.syncFile n)
    | .dir _ _ => none)

mutual

/-- The event trace a depth-first pre-order sync of one directory must
produce, as §4.5/§5 of the spec describe it: enter the folder, sync all its
files in enumeration order, then fully traverse each subdirectory in
enumeration order. -/
def specTraceDir (rpath : String) (entries : List LocalEntry) : List Event :=
  Event.enterFolder rpath :: (fileEvents entries ++ specTraceSubs rpath entries)

/-- The concatenated traces of the subdirectories, in enumeration order. -/
def specTraceSubs (rpath : String) : List LocalEntry → List Event
  | [] => []
  | .file _ _ :: rest => specTraceSubs rpath rest
  | .dir n sub :: rest =>
    specTraceDir (pyPathJoin rpath n) sub ++ specTraceSubs rpath rest

end

/-- An empty remote account (no files, fresh ids from 0, clock at 7). -/
def emptyDrive : Drive := { files := [], nextId := 0, time := 7 }


/-- The flattened spec traces of a list of (name, entries) subdirectory
pairs, in order. -/
def subsTrace (rpath : String) : List (String × List LocalEntry) → List Event
  | [] => []
  | pr :: rest => specTraceDir (pyPathJoin rpath pr.1) pr.2 ++
      subsTrace rpath rest

/-- The drive state after resolving path `"a"` against `emptyDrive` with an
empty prefetched index (one folder created). -/
def driveAfterA : Drive :=
  { files := [⟨"id0", "a", FOLDER_MIME_TYPE, [], 7⟩],
    nextId := 1,
    time := 7,
    log := [{ title := "a", mimeType := some FOLDER_MIME_TYPE }],
    trace := [] }

/-- The drive state after `syncFolderFuel 2 emptyDrive
[.file "f" 1, .dir "s" []] "backup" (some [])`. -/
def syncExampleResult : Drive :=
  { files := [⟨"id0", "backup", FOLDER_MIME_TYPE, [], 7⟩,
      ⟨"id1", "f", "", ["id0"], 7⟩,
      ⟨"id2", "backup", FOLDER_MIME_TYPE, [], 7⟩,
      ⟨"id3", "s", FOLDER_MIME_TYPE, ["id2"], 7⟩],
    nextId := 4,
    time := 7,
    log := [{ title := "backup", mimeType := some FOLDER_MIME_TYPE },
      { title := "f", parents := ["id0"] },
      { title := "backup", mimeType := some FOLDER_MIME_TYPE },
      { title := "s", mimeType := some FOLDER_MIME_TYPE,
        parents := ["id2"] }],
    trace := [.enterFolder "backup", .syncFile "f", .enterFolder "backup/s"] }

/-!  Theorems.  -/

/-- C10: when a prefetched `file_list` is supplied, `get_gdrive_folder_id`
is independent of its `remote_parent_id` argument — the lookup scans the
entire supplied list without restricting to children of the given parent. -/
theorem get_gdrive_folder_id_ignores_parent (d : Drive) (name : String)
    (p q : Option String) (l : DFileList) :
    get_gdrive_folder_id d name p (some l) =
      get_gdrive_folder_id d name q (some l) := rfl

/-- C7 counterexample: on `"a//b/"` the segmenter keeps the empty segment
produced by the trailing separator, so it does not return `["a","b"]` as the
claim states. -/
theorem pathSegments_trailing_sep_not_dropped :
    pathSegments "a//b/" = some ["a", "b", ""] ∧
      some ["a", "b", ""] ≠ some ["a", "b"] := by
  constructor
  · rfl
  · decide

/-- C7 (amended): the segmenter yields the folder names in root-to-leaf
order; an empty segment arising from a doubled separator is discarded, but a
trailing separator contributes a trailing empty segment:
`segments("a/b/c") = ["a","b","c"]`, `segments("a//b") = ["a","b"]`, and
`segments("a//b/") = ["a","b",""]`. -/
theorem pathSegments_examples :
    pathSegments "a/b/c" = some ["a", "b", "c"] ∧
      pathSegments "a//b" = some ["a", "b"] ∧
      pathSegments "a//b/" = some ["a", "b", ""] := by
  refine ⟨rfl, rfl, rfl⟩

/-- C8 counterexample: the segmenter does not fail on the empty path — it
succeeds and returns a single empty segment (the source has no
`ValidationError` at all). -/
theorem pathSegments_empty_path_succeeds : pathSegments "" = some [""] := rfl

/-- C4 (code evaluated at the failing input): `get_gdrive_file_id` matches
by substring containment, returning the record titled `"report.txt"` when
asked for `"report"`, although no title equals `"report"` exactly. -/
theorem get_gdrive_file_id_substring_match :
    get_gdrive_file_id emptyDrive "report" none
        (some [⟨"id9", "report.txt", "text/plain", ["p"], 5⟩]) =
      some "id9" ∧ "report" ≠ "report.txt" := by
  constructor
  · rfl
  · decide

/-- C6 counterexample: a record with an empty `parents` set is *not*
returned by `_extract_file_list` for the root parent (`None`): the Python
membership test compares `None` against parent-id strings and never
matches. -/
theorem extract_file_list_root_empty_parents :
    extract_file_list [⟨"n1", "x", FOLDER_MIME_TYPE, [], 3⟩] none = [] ∧
      DriveFile.parents ⟨"n1", "x", FOLDER_MIME_TYPE, [], 3⟩ = [] := by
  constructor
  · rfl
  · rfl

/-- C2 (code evaluated at the failing input): syncing the local tree
`sub/subsub` into remote path `"backup"` on an empty account creates *two*
remote folders titled `"sub"` under the same parent `"id0"` in a single
pass — the root listing is fetched before `"sub"` exists and never
refreshed for the deeper recursive call. -/
theorem syncFolder_duplicate_folder_creation :
    (sync_folder emptyDrive [.dir "sub" [.dir "subsub" []]] "backup"
        none).map
      (fun d => d.log.countP (fun p =>
        p.title == "sub" && p.parents == ["id0"] &&
          p.mimeType == some FOLDER_MIME_TYPE)) = some 2 := by
  rfl

/-- C1 counterexample: resolving the path `"a/a"` twice against an empty
drive, where the second application's index reflects the first
application's two folder creations, returns leaf `"id0"` the second time
instead of the first run's leaf `"id1"` — the lookup ignores the parent, so
the repeated segment resolves to the first created folder both times. -/
theorem create_gdrive_path_rerun_leaf_differs :
    (create_gdrive_path emptyDrive "a/a" (some [])).map (fun r => r.1) =
        some (some "id1") ∧
      ((create_gdrive_path emptyDrive "a/a" (some [])).bind (fun r =>
        (create_gdrive_path r.2 "a/a" (some r.2.files)).map
          (fun r2 => r2.1))) = some (some "id0") ∧
      (some "id0" : Option String) ≠ some "id1" := by
  refine ⟨rfl, rfl, by decide⟩

/-- C3 counterexample: on segments `["a","a"]` against an empty index the
source resolver creates two remote folders, whereas a resolver that
continues with the index extended by each newly created record (the
behaviour the claim describes) creates only one — so the source does not
continue with an updated index. -/
theorem createFolders_not_index_threaded :
    ((createFolders emptyDrive ["a", "a"] none (some [])).2.files.length = 2
        ∧ (createFoldersThreaded emptyDrive ["a", "a"]
          none []).2.files.length = 1) ∧
      (createFolders emptyDrive ["a", "a"] none (some [])).1 ≠
        (createFoldersThreaded emptyDrive ["a", "a"] none []).1 := by
  refine ⟨⟨rfl, rfl⟩, by decide⟩

theorem head?_dropWhile_false {α : Type} {p : α → Bool} {l : List α} {c : α}
    (h : (l.dropWhile p).head? = some c) : p c = false := by
  induction l with
  | nil => simp [List.dropWhile] at h
  | cons x xs ih =>
    rw [List.dropWhile_cons] at h
    by_cases hx : p x
    · simp [hx] at h; exact ih h
    · simp [hx] at h; subst h; simpa using hx

theorem reverse_split (p : List Char) :
    p = (p.reverse.dropWhile nonSep).reverse ++
      (p.reverse.takeWhile nonSep).reverse := by
  conv_lhs => rw [← List.reverse_reverse p,
    ← List.takeWhile_append_dropWhile nonSep p.reverse]
  rw [List.reverse_append]

theorem pyPathSplit_eq (p : List Char) :
    pyPathSplit p =
      if (p.reverse.dropWhile nonSep).reverse ≠ [] ∧
          ((p.reverse.dropWhile nonSep).reverse).any nonSep = true then
        (((p.reverse.dropWhile nonSep).dropWhile isSep).reverse,
          (p.reverse.takeWhile nonSep).reverse)
      else
        ((p.reverse.dropWhile nonSep).reverse,
          (p.reverse.takeWhile nonSep).reverse) := by
  have hp := reverse_split p
  set A := (p.reverse.dropWhile nonSep).reverse with hA
  set T := (p.reverse.takeWhile nonSep).reverse with hT
  have htake : p.take (p.length - T.length) = A := by
    rw [hp]
    have hlen : (A ++ T).length - T.length = A.length := by
      simp [List.length_append]
    rw [hlen, List.take_left]
  simp only [pyPathSplit, htake, List.reverse_reverse]
  simp only [hA, hT, List.reverse_reverse]

theorem head?_append_left {α : Type} (A T : List α) (h : A ≠ []) :
    (A ++ T).head? = A.head? := by
  cases A with
  | nil => exact absurd rfl h
  | cons a as => rfl

theorem prefix_head? {α : Type} {l₁ l₂ : List α} (h : l₁ <+: l₂)
    (hne : l₁ ≠ []) : l₁.head? = l₂.head? := by
  obtain ⟨t, ht⟩ := h
  rw [← ht, head?_append_left _ _ hne]

theorem sep_mem_of_head (p : List Char) (hsep : p.head? = some '/') :
    '/' ∈ p := by
  cases p with
  | nil => simp at hsep
  | cons c cs => simp at hsep; subst hsep; exact List.mem_cons_self _ _

theorem dropWhile_nonSep_ne_nil (p : List Char) (hmem : '/' ∈ p) :
    p.reverse.dropWhile nonSep ≠ [] := by
  intro hnil
  rw [List.dropWhile_eq_nil_iff] at hnil
  have := hnil '/' (List.mem_reverse.mpr hmem)
  simp [nonSep] at this

theorem pyPathSplit_sep_head (p : List Char) (_hne : p ≠ [])
    (hsep : p.head? = some '/') :
    (pyPathSplit p).1 ≠ [] ∧ (pyPathSplit p).1.head? = some '/' := by
  have hp := reverse_split p
  have hD : p.reverse.dropWhile nonSep ≠ [] :=
    dropWhile_nonSep_ne_nil p (sep_mem_of_head p hsep)
  have hA : (p.reverse.dropWhile nonSep).reverse ≠ [] := by
    simpa using hD
  have hAhead : ((p.reverse.dropWhile nonSep).reverse).head? = some '/' := by
    rw [← hsep]
    conv_rhs => rw [hp]
    rw [head?_append_left _ _ hA]
  rw [pyPathSplit_eq]
  by_cases hC : (p.reverse.dropWhile nonSep).reverse ≠ [] ∧
      ((p.reverse.dropWhile nonSep).reverse).any nonSep = true
  · rw [if_pos hC]
    have hnil : (p.reverse.dropWhile nonSep).dropWhile isSep ≠ [] := by
      intro hnil
      rw [List.dropWhile_eq_nil_iff] at hnil
      obtain ⟨c, hcmem, hcn⟩ := List.any_eq_true.mp hC.2
      have hcD : c ∈ p.reverse.dropWhile nonSep := List.mem_reverse.mp hcmem
      have := hnil c hcD
      simp [isSep] at this
      simp [nonSep, this] at hcn
    have hpre : ((p.reverse.dropWhile nonSep).dropWhile isSep).reverse <+:
        (p.reverse.dropWhile nonSep).reverse :=
      List.reverse_prefix.mpr (List.dropWhile_suffix isSep)
    have hrne : ((p.reverse.dropWhile nonSep).dropWhile isSep).reverse ≠ []
      := by simpa using hnil
    exact ⟨hrne, by rw [prefix_head? hpre hrne]; exact hAhead⟩
  · rw [if_neg hC]
    exact ⟨hA, hAhead⟩

theorem pyPathSplit_nonsep_head (p : List Char) (hns : p.head? ≠ some '/') :
    (pyPathSplit p).1.head? ≠ some '/' := by
  have hp := reverse_split p
  rw [pyPathSplit_eq]
  by_cases hC : (p.reverse.dropWhile nonSep).reverse ≠ [] ∧
      ((p.reverse.dropWhile nonSep).reverse).any nonSep = true
  · rw [if_pos hC]
    by_cases hrne : ((p.reverse.dropWhile nonSep).dropWhile isSep).reverse = []
    · simp [hrne]
    · have hpre : ((p.reverse.dropWhile nonSep).dropWhile isSep).reverse <+:
          (p.reverse.dropWhile nonSep).reverse :=
        List.reverse_prefix.mpr (List.dropWhile_suffix isSep)
      rw [prefix_head? hpre hrne]
      rw [← head?_append_left _ ((p.reverse.takeWhile nonSep).reverse) hC.1,
        ← hp]
      exact hns
  · rw [if_neg hC]
    by_cases hA : (p.reverse.dropWhile nonSep).reverse = []
    · simp [hA]
    · rw [← head?_append_left _ ((p.reverse.takeWhile nonSep).reverse) hA,
        ← hp]
      exact hns

theorem length_le_of_append_left {α : Type} {A T p : List α}
    (h : p = A ++ T) : A.length ≤ p.length := by
  subst h; simp

theorem pyPathSplit_length_lt (p : List Char) (hne : p ≠ [])
    (hns : p.head? ≠ some '/') : (pyPathSplit p).1.length < p.length := by
  have hp := reverse_split p
  have hplen : 0 < p.length := List.length_pos.mpr hne
  rw [pyPathSplit_eq]
  by_cases hC : (p.reverse.dropWhile nonSep).reverse ≠ [] ∧
      ((p.reverse.dropWhile nonSep).reverse).any nonSep = true
  · rw [if_pos hC]
    have hD : p.reverse.dropWhile nonSep ≠ [] := by
      intro hnil; exact hC.1 (by simp [hnil])
    have hDhead : ∃ D', p.reverse.dropWhile nonSep = '/' :: D' := by
      cases hDD : p.reverse.dropWhile nonSep with
      | nil => exact absurd hDD hD
      | cons d D' =>
        have : nonSep d = false := head?_dropWhile_false (by rw [hDD]; rfl)
        simp [nonSep] at this
        subst this
        exact ⟨D', rfl⟩
    obtain ⟨D', hD'⟩ := hDhead
    have hALen : (p.reverse.dropWhile nonSep).length ≤ p.length := by
      have := length_le_of_append_left hp
      simpa using this
    rw [hD']
    have : (List.dropWhile isSep ('/' :: D')).length ≤ D'.length := by
      rw [List.dropWhile_cons]
      simp [isSep]
      exact (List.dropWhile_suffix isSep).sublist.length_le
    have hlen2 : ('/' :: D').length ≤ p.length := by rw [← hD']; exact hALen
    simp only [List.length_reverse]
    simp at hlen2
    omega
  · rw [if_neg hC]
    push_neg at hC
    by_cases hA : (p.reverse.dropWhile nonSep).reverse = []
    · simp [hA]; exact hplen
    · exfalso
      have hany := hC hA
      have hAhead : ((p.reverse.dropWhile nonSep).reverse).head? = p.head? :=
        by conv_rhs => rw [hp]
           rw [head?_append_left _ _ hA]
      obtain ⟨c, hc⟩ : ∃ c, ((p.reverse.dropWhile nonSep).reverse).head? =
          some c := by
        cases hAA : (p.reverse.dropWhile nonSep).reverse with
        | nil => exact absurd hAA hA
        | cons a as => exact ⟨a, rfl⟩
      have hcp : p.head? = some c := by rw [← hAhead, hc]
      have hcne : c ≠ '/' := by intro hh; rw [hh] at hcp; exact hns hcp
      have hcmem : c ∈ (p.reverse.dropWhile nonSep).reverse :=
        List.mem_of_mem_head? (by rw [hc]; exact rfl)
      have : ((p.reverse.dropWhile nonSep).reverse).any nonSep = true :=
        List.any_eq_true.mpr ⟨c, hcmem, by simp [nonSep, hcne]⟩
      exact hany this

theorem pathStackGo_sep_none (fuel : Nat) :
    ∀ (h : List Char) (stack : List (List Char)), h ≠ [] →
      h.head? = some '/' → pathStackGo fuel h stack = none := by
  induction fuel with
  | zero =>
    intro h stack hne _
    simp only [pathStackGo, if_neg hne]
  | succ n ih =>
    intro h stack hne hsep
    have hs := pyPathSplit_sep_head h hne hsep
    simp only [pathStackGo, if_neg hne]
    exact ih _ _ hs.1 hs.2

theorem pathStackGo_terminates :
    ∀ (n : Nat) (h : List Char) (stack : List (List Char)),
      h.length < n → h.head? ≠ some '/' →
      ∃ r, pathStackGo n h stack = some r := by
  intro n
  induction n with
  | zero => intro h stack hlt _; omega
  | succ n ih =>
    intro h stack hlt hns
    by_cases hne : h = []
    · subst hne
      exact ⟨stack, by simp [pathStackGo]⟩
    · have h1 := pyPathSplit_length_lt h hne hns
      have h2 := pyPathSplit_nonsep_head h hns
      obtain ⟨r, hr⟩ := ih (pyPathSplit h).1 (stack ++ [(pyPathSplit h).2])
        (by omega) h2
      exact ⟨r, by simp only [pathStackGo, if_neg hne]; exact hr⟩

/-- C8 (amended): the segmenter raises no error at all; it terminates (as a
pure function) on exactly the paths that do not begin with the separator —
the empty path included — and the source loop runs forever on every path
that begins with the separator. -/
theorem create_path_stack_total_iff (p : String) :
    (p.data.head? ≠ some '/' → ∃ segs, pathSegments p = some segs) ∧
      (p.data.head? = some '/' → pathSegments p = none ∧
        ∀ fuel stack, pathStackGo fuel (pyPathSplit p.data).1 stack = none)
    := by
  constructor
  · intro hns
    by_cases hne : p.data = []
    · have hps : pyPathSplit p.data = ([], []) := by rw [hne]; rfl
      refine ⟨[""], ?_⟩
      simp [pathSegments, create_path_stack, hps, pathStackGo]
    · have h1 := pyPathSplit_length_lt p.data hne hns
      have h2 := pyPathSplit_nonsep_head p.data hns
      obtain ⟨r, hr⟩ := pathStackGo_terminates (p.length + 1)
        (pyPathSplit p.data).1 [(pyPathSplit p.data).2]
        (by have : p.length = p.data.length := rfl; omega) h2
      exact ⟨(r.map (fun l => String.mk l)).reverse,
        by simp [pathSegments, create_path_stack, hr]⟩
  · intro hsep
    have hne : p.data ≠ [] := by
      intro hh; rw [hh] at hsep; simp at hsep
    have hs := pyPathSplit_sep_head p.data hne hsep
    constructor
    · simp [pathSegments, create_path_stack,
        pathStackGo_sep_none (p.length + 1) _ _ hs.1 hs.2]
    · intro fuel stack
      exact pathStackGo_sep_none fuel _ _ hs.1 hs.2

theorem get_gdrive_folder_id_some_list (d : Drive) (s : String)
    (p : Option String) (l : DFileList) :
    get_gdrive_folder_id d s p (some l) =
      (l.find? (folderMatch s)).map (fun f => f.id) := rfl

theorem createFolders_cons (d : Drive) (s : String) (rest : List String)
    (p : Option String) (fl : Option DFileList) :
    createFolders d (s :: rest) p fl =
      createFolders (create_gdrive_folder d s p fl).2 rest
        (some (create_gdrive_folder d s p fl).1) fl := rfl

theorem upload_folderParams (d : Drive) (s : String) (p : Option String) :
    d.upload (folderParams s p) =
      (freshId d,
        { d with
          files := d.files ++ [newFolderRec d s p],
          nextId := d.nextId + 1,
          log := d.log ++ [folderParams s p] }) := rfl

theorem create_gdrive_folder_found (d : Drive) (s : String)
    (p : Option String) (l : DFileList) (f : DriveFile)
    (hf : l.find? (folderMatch s) = some f) :
    create_gdrive_folder d s p (some l) = (f.id, d) := by
  simp [create_gdrive_folder, get_gdrive_folder_id_some_list, hf]

theorem create_gdrive_folder_miss (d : Drive) (s : String)
    (p : Option String) (l : DFileList)
    (hf : l.find? (folderMatch s) = none) :
    create_gdrive_folder d s p (some l) =
      (freshId d,
        { d with
          files := d.files ++ [newFolderRec d s p],
          nextId := d.nextId + 1,
          log := d.log ++ [folderParams s p] }) := by
  simp [create_gdrive_folder, get_gdrive_folder_id_some_list, hf,
    upload_folderParams]

theorem folderMatch_newFolderRec (d : Drive) (s : String)
    (p : Option String) : folderMatch s (newFolderRec d s p) = true := by
  simp [folderMatch, newFolderRec]

theorem createFolders_files_suffix :
    ∀ (segs : List String) (d : Drive) (p : Option String) (l : DFileList),
      ∃ new, (createFolders d segs p (some l)).2.files = d.files ++ new := by
  intro segs
  induction segs with
  | nil => intro d p l; exact ⟨[], by simp [createFolders]⟩
  | cons s rest ih =>
    intro d p l
    rw [createFolders_cons]
    cases hf : l.find? (folderMatch s) with
    | some f =>
      rw [create_gdrive_folder_found d s p l f hf]
      exact ih d (some f.id) l
    | none =>
      rw [create_gdrive_folder_miss d s p l hf]
      obtain ⟨new', hnew'⟩ := ih
        { d with
          files := d.files ++ [newFolderRec d s p],
          nextId := d.nextId + 1,
          log := d.log ++ [folderParams s p] } (some (freshId d)) l
      exact ⟨newFolderRec d s p :: new', by
        rw [hnew']
        simp⟩

theorem createFolders_rerun_state :
    ∀ (segs : List String) (d : Drive) (p p' : Option String)
      (l extra new : DFileList),
      (createFolders d segs p (some l)).2.files = d.files ++ new →
      (createFolders ((createFolders d segs p (some l)).2) segs p'
        (some (l ++ extra ++ new))).2 = (createFolders d segs p (some l)).2
    := by
  intro segs
  induction segs with
  | nil => intro d p p' l extra new _; rfl
  | cons s rest ih =>
    intro d p p' l extra new hnew
    rw [createFolders_cons] at hnew ⊢
    rw [createFolders_cons]
    cases hf : l.find? (folderMatch s) with
    | some f =>
      rw [create_gdrive_folder_found d s p l f hf] at hnew ⊢
      have hf' : (l ++ extra ++ new).find? (folderMatch s) = some f := by
        rw [List.append_assoc, List.find?_append, hf]; rfl
      rw [create_gdrive_folder_found _ s p' _ f hf']
      exact ih d (some f.id) (some f.id) l extra new hnew
    | none =>
      rw [create_gdrive_folder_miss d s p l hf] at hnew ⊢
      set d₁ : Drive :=
        { d with
          files := d.files ++ [newFolderRec d s p],
          nextId := d.nextId + 1,
          log := d.log ++ [folderParams s p] } with hd₁
      obtain ⟨new', hnew'⟩ := createFolders_files_suffix rest d₁
        (some (freshId d)) l
      have hfiles : d₁.files = d.files ++ [newFolderRec d s p] := by
        rw [hd₁]
      have hcancel : new = newFolderRec d s p :: new' := by
        have h1 : d.files ++ new =
            d.files ++ (newFolderRec d s p :: new') := by
          rw [← hnew, hnew', hfiles]
          simp
        exact List.append_cancel_left h1
      obtain ⟨g, hg⟩ : ∃ g, (l ++ extra ++ new).find? (folderMatch s) =
          some g := by
        cases hLL : (l ++ extra ++ new).find? (folderMatch s) with
        | some g => exact ⟨g, rfl⟩
        | none =>
          exfalso
          rw [List.find?_eq_none] at hLL
          have hmem : newFolderRec d s p ∈ l ++ extra ++ new := by
            rw [hcancel]
            simp
          have := hLL _ hmem
          rw [folderMatch_newFolderRec] at this
          exact this rfl
      rw [create_gdrive_folder_found _ s p' _ g hg]
      have hlist : l ++ extra ++ new =
          l ++ (extra ++ [newFolderRec d s p]) ++ new' := by
        rw [hcancel]; simp
      rw [hlist]
      exact ih d₁ (some (freshId d)) (some g.id) l
        (extra ++ [newFolderRec d s p]) new' hnew'

theorem createFolders_rerun_eq :
    ∀ (segs : List String) (d : Drive) (p : Option String)
      (l extra new : DFileList),
      segs.Nodup →
      (∀ s ∈ segs, ∀ f ∈ extra, folderMatch s f = false) →
      (createFolders d segs p (some l)).2.files = d.files ++ new →
      createFolders ((createFolders d segs p (some l)).2) segs p
        (some (l ++ extra ++ new)) = createFolders d segs p (some l) := by
  intro segs
  induction segs with
  | nil => intro d p l extra new _ _ _; rfl
  | cons s rest ih =>
    intro d p l extra new hnd hextra hnew
    obtain ⟨hsrest, hndrest⟩ := List.nodup_cons.mp hnd
    rw [createFolders_cons] at hnew ⊢
    rw [createFolders_cons]
    cases hf : l.find? (folderMatch s) with
    | some f =>
      rw [create_gdrive_folder_found d s p l f hf] at hnew ⊢
      have hf' : (l ++ extra ++ new).find? (folderMatch s) = some f := by
        rw [List.append_assoc, List.find?_append, hf]; rfl
      rw [create_gdrive_folder_found _ s p _ f hf']
      exact ih d (some f.id) l extra new hndrest
        (fun t ht f' hf' => hextra t (List.mem_cons_of_mem s ht) f' hf')
        hnew
    | none =>
      rw [create_gdrive_folder_miss d s p l hf] at hnew ⊢
      set d₁ : Drive :=
        { d with
          files := d.files ++ [newFolderRec d s p],
          nextId := d.nextId + 1,
          log := d.log ++ [folderParams s p] } with hd₁
      obtain ⟨new', hnew'⟩ := createFolders_files_suffix rest d₁
        (some (freshId d)) l
      have hfiles : d₁.files = d.files ++ [newFolderRec d s p] := by
        rw [hd₁]
      have hcancel : new = newFolderRec d s p :: new' := by
        have h1 : d.files ++ new =
            d.files ++ (newFolderRec d s p :: new') := by
          rw [← hnew, hnew', hfiles]
          simp
        exact List.append_cancel_left h1
      have hextraNone : extra.find? (folderMatch s) = none :=
        List.find?_eq_none.mpr (fun x hx => by
          rw [hextra s (List.mem_cons_self s rest) x hx]
          simp)
      have hg : (l ++ extra ++ new).find? (folderMatch s) =
          some (newFolderRec d s p) := by
        rw [List.append_assoc, List.find?_append, hf]
        show (extra ++ new).find? (folderMatch s) = _
        rw [List.find?_append, hextraNone]
        show new.find? (folderMatch s) = _
        rw [hcancel]
        exact List.find?_cons_of_pos _ (folderMatch_newFolderRec d s p)
      rw [create_gdrive_folder_found _ s p _ _ hg]
      have hlist : l ++ extra ++ new =
          l ++ (extra ++ [newFolderRec d s p]) ++ new' := by
        rw [hcancel]; simp
      rw [hlist]
      have hextra' : ∀ t ∈ rest, ∀ f ∈ extra ++ [newFolderRec d s p],
          folderMatch t f = false := by
        intro t ht f hfm
        rcases List.mem_append.mp hfm with hfe | hfr
        · exact hextra t (List.mem_cons_of_mem s ht) f hfe
        · have hfr' : f = newFolderRec d s p := by simpa using hfr
          subst hfr'
          have hst : s ≠ t := fun h => hsrest (h ▸ ht)
          simp [folderMatch, newFolderRec, hst]
      exact ih d₁ (some (freshId d)) l (extra ++ [newFolderRec d s p]) new'
        hndrest hextra' hnew'

/-- C1 (amended): re-running `create_gdrive_path` with an index extended by
exactly the records the first run created performs zero remote writes (the
drive state, its log included, is unchanged), and returns the same leaf id
whenever the path's segments are pairwise distinct. -/
theorem create_gdrive_path_rerun (d : Drive) (path : String) (l : DFileList)
    (i1 : Option String) (d1 : Drive)
    (h : create_gdrive_path d path (some l) = some (i1, d1)) :
    ∃ i2, create_gdrive_path d1 path
        (some (l ++ d1.files.drop d.files.length)) = some (i2, d1) ∧
      (∀ segs, pathSegments path = some segs → segs.Nodup → i2 = i1) := by
  unfold create_gdrive_path at h ⊢
  cases hseg : pathSegments path with
  | none => rw [hseg] at h; simp at h
  | some segs =>
    rw [hseg] at h
    replace h := Option.some.inj (by simpa using h)
    obtain ⟨new, hnew⟩ := createFolders_files_suffix segs d none l
    have hd1files : d1.files = d.files ++ new := by
      rw [← hnew, h]
    have hdrop : d1.files.drop d.files.length = new := by
      rw [hd1files, List.drop_left]
    have hstate := createFolders_rerun_state segs d none none l [] new hnew
    rw [h] at hstate
    simp only [List.append_nil] at hstate
    refine ⟨(createFolders d1 segs none (some (l ++ new))).1, ?_, ?_⟩
    · rw [hdrop]
      simp only [Option.map_some']
      congr 1
      conv_lhs => rw [← Prod.mk.eta (p := createFolders d1 segs none
        (some (l ++ new)))]
      rw [hstate]
    · intro segs' hsegs' hnd
      replace hsegs' := Option.some.inj hsegs'
      subst hsegs'
      have heq := createFolders_rerun_eq segs d none l [] new hnd
        (by intro t _ f hf; simp at hf) hnew
      rw [h] at heq
      simp only [List.append_nil] at heq
      rw [heq]

/-- C3 (amended): when no folder in the supplied index matches the segment,
the resolver creates exactly one remote folder (the remote state is extended
by exactly the new record) and continues with the created id but with the
*same, unextended* index. -/
theorem create_gdrive_folder_on_miss (d : Drive) (s : String)
    (p : Option String) (l : DFileList) (rest : List String)
    (hf : l.find? (folderMatch s) = none) :
    create_gdrive_folder d s p (some l) =
      (freshId d,
        { d with
          files := d.files ++ [newFolderRec d s p],
          nextId := d.nextId + 1,
          log := d.log ++ [folderParams s p] }) ∧
    createFolders d (s :: rest) p (some l) =
      createFolders
        { d with
          files := d.files ++ [newFolderRec d s p],
          nextId := d.nextId + 1,
          log := d.log ++ [folderParams s p] }
        rest (some (freshId d)) (some l) := by
  refine ⟨create_gdrive_folder_miss d s p l hf, ?_⟩
  rw [createFolders_cons, create_gdrive_folder_miss d s p l hf]

theorem upload_some_id_preserves_ids (d : Drive) (params : FileParams)
    (fid : String) (hid : params.id = some fid) :
    ((d.upload params).2).files.map DriveFile.id =
      d.files.map DriveFile.id := by
  unfold Drive.upload
  rw [hid]
  simp only [List.map_map]
  apply List.map_congr_left
  intro f _
  simp only [Function.comp]
  split <;> rfl

/-- C5: for a local file whose (substring) name lookup finds an existing
remote counterpart, `sync_file` overwrites (uploading into the existing
node, preserving every node id) exactly when the remote modification date is
strictly earlier than the local mtime; otherwise it skips, leaving the
remote files and the write log untouched. -/
theorem sync_file_overwrite_iff (d : Drive) (lf : LocalFile)
    (rpid : Option String) (rppath : Option String) (fl : Option DFileList)
    (fid : String) (rdate : Nat)
    (hfind : get_gdrive_file_id d lf.name rpid fl = some fid)
    (hdate : get_gdrive_modification_date d fid fl = some rdate) :
    (rdate < lf.mtime → ∃ d', sync_file d lf rpid rppath fl =
        some (SyncAction.overwrite, d') ∧
        d'.files.map DriveFile.id = d.files.map DriveFile.id) ∧
    (¬ rdate < lf.mtime → ∃ d', sync_file d lf rpid rppath fl =
        some (SyncAction.skip, d') ∧ d'.files = d.files ∧ d'.log = d.log)
    := by
  have hfind' : get_gdrive_file_id (pushTrace d (.syncFile lf.name)) lf.name
      rpid fl = some fid := hfind
  have hdate' : get_gdrive_modification_date
      (pushTrace d (.syncFile lf.name)) fid fl = some rdate := hdate
  constructor
  · intro hlt
    refine ⟨((pushTrace d (.syncFile lf.name)).upload
      (create_file_params lf none (some fid))).2, ?_, ?_⟩
    · simp only [sync_file, hfind', hdate', if_pos hlt]
      rfl
    · exact upload_some_id_preserves_ids _ _ fid rfl
  · intro hge
    refine ⟨pushTrace d (.syncFile lf.name), ?_, rfl, rfl⟩
    simp only [sync_file, hfind', hdate', if_neg hge]

theorem contains_map_some_none (ps : List String) :
    (ps.map some).contains (none : Option String) = false := by
  induction ps with
  | nil => rfl
  | cons x xs ih => simp only [List.map_cons, List.contains_cons] at ih ⊢; simp [ih]

theorem contains_map_some_some (ps : List String) (p : String) :
    (ps.map some).contains (some p) = ps.contains p := by
  induction ps with
  | nil => rfl
  | cons x xs ih => simp [ih]

/-- C6 (amended): for a real (non-`None`) parent id the child filter keeps
exactly the records whose `parents` contain that id; for the root parent
(`None`) it keeps nothing at all — records with an empty `parents` set or a
root marker included — because `None` never equals a parent-id string. -/
theorem extract_file_list_spec (l : DFileList) (p : String) :
    extract_file_list l (some p) =
        l.filter (fun f => f.parents.contains p) ∧
      extract_file_list l none = [] := by
  constructor
  · unfold extract_file_list
    apply List.filter_congr
    intro f _
    exact contains_map_some_some f.parents p
  · unfold extract_file_list
    rw [List.filter_eq_nil_iff]
    intro f _
    rw [contains_map_some_none f.parents]
    simp

theorem upload_trace (d : Drive) (params : FileParams) :
    (d.upload params).2.trace = d.trace := by
  unfold Drive.upload
  cases params.id <;> rfl

theorem create_gdrive_folder_trace (d : Drive) (s : String)
    (p : Option String) (fl : Option DFileList) :
    (create_gdrive_folder d s p fl).2.trace = d.trace := by
  unfold create_gdrive_folder
  cases get_gdrive_folder_id d s p fl with
  | none => exact upload_trace d (folderParams s p)
  | some fid => rfl

theorem createFolders_trace :
    ∀ (segs : List String) (d : Drive) (p : Option String)
      (fl : Option DFileList),
      (createFolders d segs p fl).2.trace = d.trace := by
  intro segs
  induction segs with
  | nil => intro d p fl; rfl
  | cons s rest ih =>
    intro d p fl
    rw [createFolders_cons, ih, create_gdrive_folder_trace]

theorem create_gdrive_path_trace (d : Drive) (path : String)
    (fl : Option DFileList) (rpid : Option String) (d1 : Drive)
    (h : create_gdrive_path d path fl = some (rpid, d1)) :
    d1.trace = d.trace := by
  unfold create_gdrive_path at h
  cases hseg : pathSegments path with
  | none => rw [hseg] at h; simp at h
  | some segs =>
    rw [hseg] at h
    replace h := Option.some.inj (by simpa using h)
    have h2 : (createFolders d segs none fl).2 = d1 := by rw [h]
    rw [← h2]
    exact createFolders_trace segs d none fl

theorem upload_file_trace (d : Drive) (lf : LocalFile)
    (rpid : Option String) (rppath : Option String) (fid : Option String)
    (fl : Option DFileList) (d' : Drive)
    (h : upload_file d lf rpid rppath fid fl = some d') :
    d'.trace = d.trace := by
  cases rppath with
  | none =>
    simp only [upload_file] at h
    replace h := Option.some.inj h
    rw [← h]
    exact upload_trace d _
  | some path =>
    simp only [upload_file] at h
    by_cases hr : rpid = none
    · rw [if_pos hr] at h; simp at h
    · rw [if_neg hr] at h
      cases hp : get_gdrive_path_id d path fl with
      | none => rw [hp] at h; simp at h
      | some rp =>
        rw [hp] at h
        replace h := Option.some.inj h
        rw [← h]
        exact upload_trace d _

theorem sync_file_trace (d : Drive) (lf : LocalFile)
    (rpid : Option String) (rppath : Option String) (fl : Option DFileList)
    (a : SyncAction) (d' : Drive)
    (h : sync_file d lf rpid rppath fl = some (a, d')) :
    d'.trace = d.trace ++ [Event.syncFile lf.name] := by
  simp only [sync_file] at h
  cases hfind : get_gdrive_file_id (pushTrace d (.syncFile lf.name)) lf.name
      rpid fl with
  | none =>
    rw [hfind] at h
    dsimp only [] at h
    simp only [Option.map_eq_some'] at h
    obtain ⟨d'', hd'', heq⟩ := h
    have : d' = d'' := by
      have := congrArg Prod.snd heq
      simpa using this.symm
    subst this
    rw [upload_file_trace _ _ _ _ _ _ _ hd'']
    rfl
  | some fid =>
    rw [hfind] at h
    dsimp only [] at h
    cases hdate : get_gdrive_modification_date
        (pushTrace d (.syncFile lf.name)) fid fl with
    | none => rw [hdate] at h; simp at h
    | some rdate =>
      rw [hdate] at h
      dsimp only [] at h
      by_cases hlt : rdate < lf.mtime
      · rw [if_pos hlt] at h
        simp only [Option.map_eq_some'] at h
        obtain ⟨d'', hd'', heq⟩ := h
        have : d' = d'' := by
          have := congrArg Prod.snd heq
          simpa using this.symm
        subst this
        rw [upload_file_trace _ _ _ _ _ _ _ hd'']
        rfl
      · rw [if_neg hlt] at h
        replace h := Option.some.inj h
        have h2 : d' = pushTrace d (.syncFile lf.name) := by
          have := congrArg Prod.snd h
          simpa using this.symm
        rw [h2]
        rfl

theorem sync_folder_non_recursive_spec :
    ∀ (entries : List LocalEntry) (d : Drive) (rpid : Option String)
      (fl : Option DFileList) (d' : Drive)
      (subs : List (String × List LocalEntry)),
      sync_folder_non_recursive d entries rpid fl = some (d', subs) →
      d'.trace = d.trace ++ fileEvents entries ∧ subs = dirPairs entries := by
  intro entries
  induction entries with
  | nil =>
    intro d rpid fl d' subs h
    replace h := Option.some.inj h
    have h1 : d' = d := by
      have := congrArg Prod.fst h
      simpa using this.symm
    have h2 : subs = [] := by
      have := congrArg Prod.snd h
      simpa using this.symm
    subst h1
    subst h2
    simp [fileEvents, dirPairs]
  | cons e rest ih =>
    intro d rpid fl d' subs h
    cases e with
    | dir n es =>
      simp only [sync_folder_non_recursive, Option.map_eq_some'] at h
      obtain ⟨r, hr, heq⟩ := h
      obtain ⟨hr1, hr2⟩ := ih d rpid fl r.1 r.2 (by rw [hr])
      have h1 : d' = r.1 := by
        have := congrArg Prod.fst heq
        simpa using this.symm
      have h2 : subs = (n, es) :: r.2 := by
        have := congrArg Prod.snd heq
        simpa using this.symm
      subst h1
      subst h2
      constructor
      · rw [hr1]
        simp [fileEvents]
      · rw [hr2]
        simp [dirPairs]
    | file n mt =>
      simp only [sync_folder_non_recursive] at h
      cases hs : sync_file d ⟨n, mt⟩ rpid none fl with
      | none => rw [hs] at h; simp at h
      | some r =>
        rw [hs] at h
        dsimp only [] at h
        obtain ⟨hr1, hr2⟩ := ih r.2 rpid fl d' subs h
        have htr := sync_file_trace d ⟨n, mt⟩ rpid none fl r.1 r.2
          (by rw [hs])
        constructor
        · rw [hr1, htr]
          simp [fileEvents]
        · rw [hr2]
          simp [dirPairs]


theorem specTraceSubs_eq (rpath : String) :
    ∀ entries, specTraceSubs rpath entries =
      subsTrace rpath (dirPairs entries) := by
  intro entries
  induction entries with
  | nil => simp [specTraceSubs, dirPairs, subsTrace]
  | cons e rest ih =>
    cases e with
    | file n mt => simpa [specTraceSubs, dirPairs] using ih
    | dir n es => simp [specTraceSubs, dirPairs, subsTrace, ih]

theorem foldl_none_of {α β : Type}
    (f : Option β → α → Option β) (hf : ∀ x, f none x = none) :
    ∀ l : List α, l.foldl f none = none := by
  intro l
  induction l with
  | nil => rfl
  | cons x xs ih => rw [List.foldl_cons, hf]; exact ih

/-- C9: the orchestrator's event trace is exactly the depth-first pre-order
trace: enter the folder, sync all files of the directory in enumeration
order, then fully complete each subdirectory in enumeration order before the
next sibling begins. -/
theorem syncFolderFuel_trace :
    ∀ (fuel : Nat) (d : Drive) (entries : List LocalEntry) (rpath : String)
      (rl : Option DFileList) (d' : Drive),
      syncFolderFuel fuel d entries rpath rl = some d' →
      d'.trace = d.trace ++ specTraceDir rpath entries := by
  intro fuel
  induction fuel with
  | zero => intro d entries rpath rl d' h; simp [syncFolderFuel] at h
  | succ n ih =>
    intro d entries rpath rl d' h
    simp only [syncFolderFuel] at h
    cases hcp : create_gdrive_path (pushTrace d (.enterFolder rpath)) rpath
        rl with
    | none => rw [hcp] at h; simp at h
    | some pr =>
      obtain ⟨rpid, d1⟩ := pr
      rw [hcp] at h
      dsimp only [] at h
      cases hnr : sync_folder_non_recursive d1 entries rpid
          (some (extract_file_list (rl.getD d1.files) rpid)) with
      | none => rw [hnr] at h; simp at h
      | some r =>
        obtain ⟨d2, subs⟩ := r
        rw [hnr] at h
        dsimp only [] at h
        have htr1 : d1.trace = d.trace ++ [Event.enterFolder rpath] := by
          rw [create_gdrive_path_trace _ _ _ _ _ hcp]
          rfl
        obtain ⟨htr2, hsubs⟩ := sync_folder_non_recursive_spec entries d1
          rpid _ d2 subs hnr
        have hfold : ∀ (subs2 : List (String × List LocalEntry))
            (db dc : Drive),
            subs2.foldl (fun acc p => acc.bind (fun dd =>
              syncFolderFuel n dd p.2 (pyPathJoin rpath p.1)
                (some (rl.getD d1.files)))) (some db) = some dc →
            dc.trace = db.trace ++ subsTrace rpath subs2 := by
          intro subs2
          induction subs2 with
          | nil =>
            intro db dc hh
            replace hh := Option.some.inj hh
            rw [← hh]
            simp [subsTrace]
          | cons pr rest ihs =>
            intro db dc hh
            rw [List.foldl_cons] at hh
            simp only [Option.some_bind] at hh
            cases hstep : syncFolderFuel n db pr.2 (pyPathJoin rpath pr.1)
                (some (rl.getD d1.files)) with
            | none =>
              rw [hstep] at hh
              rw [foldl_none_of _ (fun x => rfl) rest] at hh
              exact absurd hh (by simp)
            | some d3 =>
              rw [hstep] at hh
              have hrest := ihs d3 dc hh
              have hone := ih db pr.2 (pyPathJoin rpath pr.1)
                (some (rl.getD d1.files)) d3 hstep
              rw [hrest, hone, subsTrace, List.append_assoc]
        have hmain := hfold subs d2 d' h
        rw [hmain, htr2, htr1, hsubs, ← specTraceSubs_eq]
        simp [specTraceDir]


/-- C1 witness: for the concrete path `"a"`, empty index and empty drive,
the rerun hypothesis holds and the rerun returns the first run's leaf
`"id0"` with the drive state unchanged. -/
theorem create_gdrive_path_rerun_witness :
    create_gdrive_path driveAfterA "a"
        (some ([] ++ driveAfterA.files.drop emptyDrive.files.length)) =
      some (some "id0", driveAfterA) := by
  obtain ⟨i2, h1, h2⟩ := create_gdrive_path_rerun emptyDrive "a" []
    (some "id0") driveAfterA (by decide)
  have hi2 : i2 = some "id0" := h2 ["a"] (by decide) (by decide)
  rw [← hi2]
  exact h1

/-- C3 witness: on segments `["a","b"]` with an empty index, the first
segment misses, one folder is created, and resolution continues with the
same empty index. -/
theorem create_gdrive_folder_on_miss_witness :
    createFolders emptyDrive ["a", "b"] none (some []) =
      createFolders
        { emptyDrive with
          files := emptyDrive.files ++ [newFolderRec emptyDrive "a" none],
          nextId := emptyDrive.nextId + 1,
          log := emptyDrive.log ++ [folderParams "a" none] }
        ["b"] (some (freshId emptyDrive)) (some []) :=
  (create_gdrive_folder_on_miss emptyDrive "a" none [] ["b"] (by decide)).2

/-- C5 witness: a remote counterpart dated 1 against a local mtime of 2 is
overwritten. -/
theorem sync_file_overwrite_iff_witness :
    (sync_file
        { files := [⟨"id0", "f.txt", "text/plain", ["p"], 1⟩],
          nextId := 1, time := 9 }
        ⟨"f.txt", 2⟩ none none
        (some [⟨"id0", "f.txt", "text/plain", ["p"], 1⟩])).map
      (fun r => r.1) = some SyncAction.overwrite := by
  obtain ⟨d', hd', _⟩ := (sync_file_overwrite_iff
    { files := [⟨"id0", "f.txt", "text/plain", ["p"], 1⟩],
      nextId := 1, time := 9 }
    ⟨"f.txt", 2⟩ none none
    (some [⟨"id0", "f.txt", "text/plain", ["p"], 1⟩])
    "id0" 1 (by decide) (by decide)).1 (by decide)
  rw [hd']
  rfl

/-- C8 witness: `"/a"` begins with the separator and the segmenter loops
forever on it, while `"ab"` does not and the segmenter succeeds. -/
theorem create_path_stack_total_iff_witness :
    pathSegments "/a" = none ∧ (∃ segs, pathSegments "ab" = some segs) := by
  constructor
  · exact ((create_path_stack_total_iff "/a").2 (by decide)).1
  · exact (create_path_stack_total_iff "ab").1 (by decide)

/-- C9 witness: the concrete sync of `[f, s/]` into `"backup"` produces
exactly the depth-first pre-order trace. -/
theorem syncFolderFuel_trace_witness :
    syncExampleResult.trace =
      emptyDrive.trace ++
        specTraceDir "backup" [.file "f" 1, .dir "s" []] :=
  syncFolderFuel_trace 2 emptyDrive [.file "f" 1, .dir "s" []] "backup"
    (some []) syncExampleResult (by decide)
